import Mathlib

/-!
Verification development for the tuti room-session engine.

This file gives a shallow embedding of the game engine
(`shared/game-engine.ts`) and of the review/scoring composable
(`src/utils/timing.ts`, the `useSmartReview` version whose rejection
threshold is `floor(juryPoolSize / 2) + 1`), together with theorems
settling the specification claims about them.

Strings are modelled as Lean `String`s (lists of Unicode scalar values).
JavaScript number arithmetic on the small non-negative counts involved is
modelled with `Nat`; `Math.max(1, n - 1)` agrees with `max 1 (n - 1)`
under truncated subtraction for every count `n`.
-/

namespace Tuti

/-- Game phase. Modelled from the spec: the `GameStatus` union of
`shared/types.ts` is not among the sources; its four constructors are taken
from spec section 3 and from the string literals used in
`shared/game-engine.ts` and `src/utils/timing.ts`. -/
inductive Status
  | LOBBY
  | PLAYING
  | REVIEW
  | RESULTS
deriving Repr, DecidableEq

/-- Player record. Modelled from the spec: `Player` of `shared/types.ts` is
not among the sources; the fields are those read and written by
`GameEngine` in `shared/game-engine.ts` (`id`, `name`, `score`, `isHost`). -/
structure Player where
  id : String
  name : String
  score : Nat
  isHost : Bool
deriving Repr, DecidableEq

/-- Room state. Modelled from the spec: `RoomState` of `shared/types.ts` is
not among the sources; the fields are exactly those initialised by the
`GameEngine` constructor in `shared/game-engine.ts`. `answers` is the
JavaScript object `playerId -> (category -> text)`, modelled as an
association list. -/
structure RoomState where
  status : Status
  players : List Player
  roomId : String
  currentLetter : Option Char
  categories : List String
  answers : List (String × List (String × String))
  roundsPlayed : Nat
deriving Repr, DecidableEq

/-- Embeds the `GameEngine` constructor (`shared/game-engine.ts` lines
6-16). -/
def initialState (roomId : String) : RoomState :=
  { status := .LOBBY
    players := []
    roomId := roomId
    currentLetter := none
    categories := ["Nombre", "Color", "Fruta", "País", "Cosa"]
    answers := []
    roundsPlayed := 0 }

/-- Embeds the in-place update `existingPlayer.name = name` applied to the
first player whose id matches, as produced by `players.find(...)` followed
by the field assignment in `joinPlayer`. -/
def updateFirstName : List Player → String → String → List Player
  | [], _, _ => []
  | p :: ps, id, name =>
      if p.id = id then { p with name := name } :: ps
      else p :: updateFirstName ps id name

/-- List-level body of `joinPlayer`: if a player with the id exists its
name is updated, otherwise a new player is pushed whose `isHost` is
`players.length === 0`. -/
def joinPlayerList (ps : List Player) (id name : String) : List Player :=
  if (ps.find? (fun p => p.id = id)).isSome then updateFirstName ps id name
  else ps ++ [{ id := id, name := name, score := 0, isHost := ps.length == 0 }]

/-- Embeds `GameEngine.joinPlayer` (`shared/game-engine.ts` lines 22-40);
the method only touches the `players` field. -/
def joinPlayer (s : RoomState) (id name : String) : RoomState :=
  { s with players := joinPlayerList s.players id name }

/-- Embeds `players[0].isHost = true` on a non-empty list. -/
def setHeadHost : List Player → List Player
  | [] => []
  | p :: ps => { p with isHost := true } :: ps

/-- Embeds `GameEngine.removePlayer` (`shared/game-engine.ts` lines 42-61):
records whether the first player found with the id was host, filters the
id out, reassigns host to `players[0]` when needed, and resets the room
when no players remain. -/
def removePlayer (s : RoomState) (id : String) : RoomState :=
  let wasHost := ((s.players.find? (fun p => p.id = id)).map Player.isHost).getD false
  let remaining := s.players.filter (fun p => ¬ p.id = id)
  let reassigned :=
    if wasHost ∧ remaining.length > 0 then setHeadHost remaining else remaining
  if reassigned.length = 0 then
    { s with players := reassigned, status := .LOBBY, currentLetter := none,
             roundsPlayed := 0, answers := [] }
  else
    { s with players := reassigned }

/-- Alphabet literal of `startGame`. -/
def alphabet : List Char := "ABCDEFGHIJKLMNOPQRSTUVWXYZ".data

/-- Embeds the draw `charAt(Math.floor(Math.random() * 26))` over the
alphabet literal: the random draw is modelled as an index `i < 26`
supplied as a parameter. -/
def pickLetter (i : Fin 26) : Char := alphabet.getD i.val 'A'

/-- Embeds `GameEngine.startGame` (`shared/game-engine.ts` lines 63-71):
when the requester is found and is host, it sets status PLAYING, picks a
letter and clears answers; in every other case the state is returned
unchanged and no error is raised. The method never inspects `status`. -/
def startGame (s : RoomState) (playerId : String) (i : Fin 26) : RoomState :=
  match s.players.find? (fun p => p.id = playerId) with
  | some p =>
      if p.isHost then
        { s with status := .PLAYING, currentLetter := some (pickLetter i),
                 answers := [] }
      else s
  | none => s

/-- Embeds `GameEngine.stopRound` (`shared/game-engine.ts` lines 73-80):
when the player is found, it sets status REVIEW; otherwise the state is
returned unchanged. No phase precondition is checked and no error is
raised. -/
def stopRound (s : RoomState) (playerId : String) : RoomState :=
  if (s.players.find? (fun p => p.id = playerId)).isSome then
    { s with status := .REVIEW }
  else s

/-- States reachable from a fresh room by the engine operations
(`joinPlayer`, `removePlayer`, `startGame`, `stopRound`). -/
inductive Reachable : RoomState → Prop
  | init (roomId : String) : Reachable (initialState roomId)
  | join {s : RoomState} (id name : String) :
      Reachable s → Reachable (joinPlayer s id name)
  | remove {s : RoomState} (id : String) :
      Reachable s → Reachable (removePlayer s id)
  | start {s : RoomState} (id : String) (i : Fin 26) :
      Reachable s → Reachable (startGame s id i)
  | stop {s : RoomState} (id : String) :
      Reachable s → Reachable (stopRound s id)

/-- Demo state used by concrete instances: one player `a` joined a fresh
room (so `a` is host and status is LOBBY). -/
def demoLobby : RoomState := joinPlayer (initialState "r") "a" "n"

/-! Normalization (`src/utils/timing.ts` line 112):
`str.trim().toLowerCase().normalize("NFD").replace(/[̀-ͯ]/g, "")`.
The three library calls are modelled per scalar value: `trim` drops the
JavaScript whitespace set at both ends, `toLowerCase` and `normalize("NFD")`
are given by explicit tables covering ASCII and the Latin-1 supplement
(they are the identity elsewhere, which is faithful on that range - the
game strings in the sources are Spanish words in this range), and the
`replace` removes the combining marks U+0300 to U+036F. -/

/-- Whitespace code points recognised by JavaScript `String.prototype.trim`. -/
def wsCodes : List Nat :=
  [0x9, 0xA, 0xB, 0xC, 0xD, 0x20, 0xA0, 0x1680,
   0x2000, 0x2001, 0x2002, 0x2003, 0x2004, 0x2005, 0x2006, 0x2007,
   0x2008, 0x2009, 0x200A, 0x2028, 0x2029, 0x202F, 0x205F, 0x3000, 0xFEFF]

/-- Tests membership in the JavaScript whitespace set. -/
def isWs (c : Char) : Bool := wsCodes.contains c.toNat

/-- Tests membership in the combining-mark range U+0300 to U+036F removed
by the `replace` call. -/
def isMark (c : Char) : Bool := decide (0x300 ≤ c.toNat ∧ c.toNat ≤ 0x36F)

/-- Lower-case table for ASCII letters and the Latin-1 supplement,
mirroring `toLowerCase` on that range. -/
def lowerPairs : List (Char × Char) :=
  [('A', 'a'), ('B', 'b'), ('C', 'c'), ('D', 'd'), ('E', 'e'), ('F', 'f'),
   ('G', 'g'), ('H', 'h'), ('I', 'i'), ('J', 'j'), ('K', 'k'), ('L', 'l'),
   ('M', 'm'), ('N', 'n'), ('O', 'o'), ('P', 'p'), ('Q', 'q'), ('R', 'r'),
   ('S', 's'), ('T', 't'), ('U', 'u'), ('V', 'v'), ('W', 'w'), ('X', 'x'),
   ('Y', 'y'), ('Z', 'z'),
   ('À', 'à'), ('Á', 'á'), ('Â', 'â'), ('Ã', 'ã'), ('Ä', 'ä'), ('Å', 'å'),
   ('Æ', 'æ'), ('Ç', 'ç'), ('È', 'è'), ('É', 'é'), ('Ê', 'ê'), ('Ë', 'ë'),
   ('Ì', 'ì'), ('Í', 'í'), ('Î', 'î'), ('Ï', 'ï'), ('Ð', 'ð'), ('Ñ', 'ñ'),
   ('Ò', 'ò'), ('Ó', 'ó'), ('Ô', 'ô'), ('Õ', 'õ'), ('Ö', 'ö'), ('Ø', 'ø'),
   ('Ù', 'ù'), ('Ú', 'ú'), ('Û', 'û'), ('Ü', 'ü'), ('Ý', 'ý'), ('Þ', 'þ')]

/-- Lower-cases one scalar value via the table. -/
def lowerChar (c : Char) : Char :=
  ((lowerPairs.find? (fun q => q.1 = c)).map Prod.snd).getD c

/-- Canonical decompositions of the precomposed Latin-1 letters, mirroring
`normalize("NFD")` on that range. -/
def nfdPairs : List (Char × List Char) :=
  [('À', ['A', '̀']), ('Á', ['A', '́']), ('Â', ['A', '̂']),
   ('Ã', ['A', '̃']), ('Ä', ['A', '̈']), ('Å', ['A', '̊']),
   ('Ç', ['C', '̧']), ('È', ['E', '̀']), ('É', ['E', '́']),
   ('Ê', ['E', '̂']), ('Ë', ['E', '̈']), ('Ì', ['I', '̀']),
   ('Í', ['I', '́']), ('Î', ['I', '̂']), ('Ï', ['I', '̈']),
   ('Ñ', ['N', '̃']), ('Ò', ['O', '̀']), ('Ó', ['O', '́']),
   ('Ô', ['O', '̂']), ('Õ', ['O', '̃']), ('Ö', ['O', '̈']),
   ('Ù', ['U', '̀']), ('Ú', ['U', '́']), ('Û', ['U', '̂']),
   ('Ü', ['U', '̈']), ('Ý', ['Y', '́']),
   ('à', ['a', '̀']), ('á', ['a', '́']), ('â', ['a', '̂']),
   ('ã', ['a', '̃']), ('ä', ['a', '̈']), ('å', ['a', '̊']),
   ('ç', ['c', '̧']), ('è', ['e', '̀']), ('é', ['e', '́']),
   ('ê', ['e', '̂']), ('ë', ['e', '̈']), ('ì', ['i', '̀']),
   ('í', ['i', '́']), ('î', ['i', '̂']), ('ï', ['i', '̈']),
   ('ñ', ['n', '̃']), ('ò', ['o', '̀']), ('ó', ['o', '́']),
   ('ô', ['o', '̂']), ('õ', ['o', '̃']), ('ö', ['o', '̈']),
   ('ù', ['u', '̀']), ('ú', ['u', '́']), ('û', ['u', '̂']),
   ('ü', ['u', '̈']), ('ý', ['y', '́']), ('ÿ', ['y', '̈'])]

/-- Decomposes one scalar value via the table. -/
def nfdChar (c : Char) : List Char :=
  ((nfdPairs.find? (fun q => q.1 = c)).map Prod.snd).getD [c]

/-- Drops JavaScript whitespace at the front. -/
def dropLeadingWs (l : List Char) : List Char := l.dropWhile isWs

/-- Embeds `trim` on scalar-value lists: whitespace is dropped at both
ends. -/
def trimL (l : List Char) : List Char :=
  ((l.dropWhile isWs).reverse.dropWhile isWs).reverse

/-- Embeds `toLowerCase` on scalar-value lists. -/
def lowerL (l : List Char) : List Char := l.map lowerChar

/-- Embeds `normalize("NFD")` on scalar-value lists. -/
def nfdL : List Char → List Char
  | [] => []
  | c :: cs => nfdChar c ++ nfdL cs

/-- Embeds `replace(/[̀-ͯ]/g, "")` on scalar-value lists. -/
def stripMarksL (l : List Char) : List Char := l.filter (fun c => ¬ isMark c = true)

/-- Composition of the three steps applied after trimming. -/
def normCore (l : List Char) : List Char := stripMarksL (nfdL (lowerL l))

/-- Embeds the `normalize` helper of `useSmartReview`
(`src/utils/timing.ts` line 112). -/
def normalize (s : String) : String := ⟨normCore (trimL s.data)⟩

/-- Embeds `str.trim()` on strings. -/
def jsTrim (s : String) : String := ⟨trimL s.data⟩

/-- Image of one scalar value under lower-case, decomposition and mark
removal (used to analyse `normalize`). -/
def normChar (c : Char) : List Char := stripMarksL (nfdChar (lowerChar c))

/-- Head of `normChar c`, the single survivor when `c` is not a combining
mark. -/
def normCharHead (c : Char) : Char := (normChar c).headD c

/-! Review classification (`src/utils/timing.ts` lines 97-188, the
`useSmartReview` version with `votesNeeded`). -/

/-- Review outcome union of `src/utils/timing.ts` line 97. -/
inductive ReviewState
  | VALID
  | DUPLICATE
  | REJECTED
  | CONTESTED
  | EMPTY
deriving Repr, DecidableEq

/-- Review player record. Modelled from the spec: the `Player` fields used
by `useSmartReview` are `id` and `isConnected` (spec section 3); the other
fields do not influence `getPlayerStatus` and are omitted. -/
structure RPlayer where
  id : String
  isConnected : Bool
deriving Repr, DecidableEq

/-- Room state as read by `useSmartReview`: the `players`, `answers` and
`votes` fields of `RoomState` (spec section 3), with the two nested
JavaScript objects modelled as association lists. -/
structure ReviewRoomState where
  players : List RPlayer
  answers : List (String × List (String × String))
  votes : List (String × List (String × List String))
deriving Repr, DecidableEq

/-- Nested-object access `m[k1]?.[k2]`. -/
def lookup2 {α : Type} (m : List (String × List (String × α))) (k1 k2 : String) :
    Option α :=
  (m.find? (fun e => e.1 = k1)).bind
    (fun e => ((e.2.find? (fun f => f.1 = k2)).map Prod.snd))

/-- Result record of `getPlayerStatus` (`src/utils/timing.ts` lines
99-107). -/
structure PlayerReviewStatus where
  playerId : String
  answer : String
  state : ReviewState
  score : Nat
  voteCount : Nat
  votesNeeded : Nat
  votesReceived : List String
deriving Repr, DecidableEq

/-- Embeds `stateVal.answers[playerId]?.[category] || ""`. -/
def answerOf (st : ReviewRoomState) (pid cat : String) : String :=
  (lookup2 st.answers pid cat).getD ""

/-- Embeds `stateVal.votes[playerId]?.[category] || []`. -/
def votesOf (st : ReviewRoomState) (pid cat : String) : List String :=
  (lookup2 st.votes pid cat).getD []

/-- Embeds `stateVal.players.filter(p => p.isConnected).length`
(`src/utils/timing.ts` line 129). -/
def connectedCount (st : ReviewRoomState) : Nat :=
  (st.players.filter (fun p => p.isConnected)).length

/-- Embeds the duplicate scan of `getPlayerStatus` (`src/utils/timing.ts`
lines 164-175): every other player whose answer in `currentCategory.value`
is present, truthy and has the same comparison key. The scan reads
`currentCategory.value`, not the possibly overridden `category`. -/
def isDuplicate (st : ReviewRoomState) (currentCategory playerId normalizedAns : String) :
    Bool :=
  st.players.any (fun player =>
    if player.id = playerId then false
    else
      match lookup2 st.answers player.id currentCategory with
      | some otherAns =>
          if otherAns = "" then false
          else decide (normalize otherAns = normalizedAns)
      | none => false)

/-- Embeds `useSmartReview(...).getPlayerStatus` (`src/utils/timing.ts`
lines 114-183). The empty test `!answer || answer.trim() === ""` collapses
to `answer.trim() === ""` because the empty string trims to itself. -/
def getPlayerStatus (st : ReviewRoomState) (currentCategory playerId : String)
    (categoryOverride : Option String) : PlayerReviewStatus :=
  let category := categoryOverride.getD currentCategory
  let answer := answerOf st playerId category
  let votes := votesOf st playerId category
  if jsTrim answer = "" then
    ⟨playerId, answer, .EMPTY, 0, 0, 0, []⟩
  else
    let activePlayersCount := connectedCount st
    let juryPoolSize := max 1 (activePlayersCount - 1)
    let rejectionThreshold := juryPoolSize / 2 + 1
    let voteCount := votes.length
    if rejectionThreshold ≤ voteCount then
      ⟨playerId, answer, .REJECTED, 0, voteCount, rejectionThreshold, votes⟩
    else if isDuplicate st currentCategory playerId (normalize answer) then
      ⟨playerId, answer, .DUPLICATE, 50, voteCount, rejectionThreshold, votes⟩
    else
      ⟨playerId, answer, .VALID, 100, voteCount, rejectionThreshold, votes⟩

/-- Builds a two-player review state where connected players `p1` and `p2`
answered `a` and `b` for category `Cosa`, with no votes cast. -/
def mkCafeState (a b : String) : ReviewRoomState :=
  { players := [⟨"p1", true⟩, ⟨"p2", true⟩]
    answers := [("p1", [("Cosa", a)]), ("p2", [("Cosa", b)])]
    votes := [] }

/-- Review state with four connected players where `p1` answered `Casa`
for `Cosa` and received challenge votes from `p2` and `p3`. -/
def fourPlayersTwoVotes : ReviewRoomState :=
  { players := [⟨"p1", true⟩, ⟨"p2", true⟩, ⟨"p3", true⟩, ⟨"p4", true⟩]
    answers := [("p1", [("Cosa", "Casa")])]
    votes := [("p1", [("Cosa", ["p2", "p3"])])] }

/-- Review state with four connected players where `p1` answered `Casa`
for `Cosa` and received one challenge vote from `p2`. -/
def fourPlayersOneVote : ReviewRoomState :=
  { players := [⟨"p1", true⟩, ⟨"p2", true⟩, ⟨"p3", true⟩, ⟨"p4", true⟩]
    answers := [("p1", [("Cosa", "Casa")])]
    votes := [("p1", [("Cosa", ["p2"])])] }

/-- Review state with two connected players where `p1` answered `Casa` for
`Cosa` and received one challenge vote from `p2`. -/
def twoPlayersOneVote : ReviewRoomState :=
  { players := [⟨"p1", true⟩, ⟨"p2", true⟩]
    answers := [("p1", [("Cosa", "Casa")])]
    votes := [("p1", [("Cosa", ["p2"])])] }

/-- Review state with two connected players where both answered variants
of the same word (a duplicate pair) and `p1` also received one vote, which
meets the two-player threshold. -/
def duplicateAndVoted : ReviewRoomState :=
  { players := [⟨"p1", true⟩, ⟨"p2", true⟩]
    answers := [("p1", [("Cosa", "Café")]), ("p2", [("Cosa", "cafe")])]
    votes := [("p1", [("Cosa", ["p2"])])] }

/-- Inductive invariant for claim C5: player ids are pairwise distinct and
at most one player holds the host flag. -/
def HostInv (s : RoomState) : Prop :=
  (s.players.map Player.id).Nodup ∧
  s.players.countP (fun p => p.isHost) ≤ 1

/-! Helper lemmas about the engine operations. -/

theorem updateFirstName_map_id (ps : List Player) (id name : String) :
    (updateFirstName ps id name).map Player.id = ps.map Player.id := by
  induction ps with
  | nil => rfl
  | cons p t ih =>
      by_cases h : p.id = id
      · simp [updateFirstName, h]
      · simp [updateFirstName, h, ih]

theorem updateFirstName_map_score (ps : List Player) (id name : String) :
    (updateFirstName ps id name).map Player.score = ps.map Player.score := by
  induction ps with
  | nil => rfl
  | cons p t ih =>
      by_cases h : p.id = id
      · simp [updateFirstName, h]
      · simp [updateFirstName, h, ih]

theorem updateFirstName_map_isHost (ps : List Player) (id name : String) :
    (updateFirstName ps id name).map Player.isHost = ps.map Player.isHost := by
  induction ps with
  | nil => rfl
  | cons p t ih =>
      by_cases h : p.id = id
      · simp [updateFirstName, h]
      · simp [updateFirstName, h, ih]

theorem updateFirstName_length (ps : List Player) (id name : String) :
    (updateFirstName ps id name).length = ps.length := by
  have := congrArg List.length (updateFirstName_map_id ps id name)
  simpa using this

theorem updateFirstName_idem (ps : List Player) (id name : String) :
    updateFirstName (updateFirstName ps id name) id name =
      updateFirstName ps id name := by
  induction ps with
  | nil => rfl
  | cons p t ih =>
      by_cases h : p.id = id
      · simp [updateFirstName, h]
      · simp [updateFirstName, h, ih]

theorem updateFirstName_append_fresh (l : List Player) (q : Player)
    (id name : String) (hl : ∀ p ∈ l, ¬ p.id = id) (hq : q.id = id)
    (hn : q.name = name) :
    updateFirstName (l ++ [q]) id name = l ++ [q] := by
  induction l with
  | nil =>
      obtain ⟨qid, qname, qs, qh⟩ := q
      simp only at hq hn
      simp [updateFirstName, hq, hn]
  | cons p t ih =>
      have hp : ¬ p.id = id := hl p (List.mem_cons_self p t)
      have ht : ∀ r ∈ t, ¬ r.id = id := fun r hr => hl r (List.mem_cons_of_mem p hr)
      simp [updateFirstName, hp, ih ht]

theorem find?_id_isSome_iff (l : List Player) (id : String) :
    (l.find? (fun p => p.id = id)).isSome = true ↔ id ∈ l.map Player.id := by
  rw [List.find?_isSome]
  simp [List.mem_map]

theorem joinPlayer_status (s : RoomState) (id name : String) :
    (joinPlayer s id name).status = s.status := rfl

theorem joinPlayer_currentLetter (s : RoomState) (id name : String) :
    (joinPlayer s id name).currentLetter = s.currentLetter := rfl

theorem joinPlayerList_idem (ps : List Player) (id name : String) :
    joinPlayerList (joinPlayerList ps id name) id name =
      joinPlayerList ps id name := by
  by_cases h : (ps.find? (fun p => p.id = id)).isSome = true
  · have e1 : joinPlayerList ps id name = updateFirstName ps id name := by
      rw [joinPlayerList, if_pos h]
    have h2 : ((updateFirstName ps id name).find?
        (fun p => p.id = id)).isSome = true := by
      rw [find?_id_isSome_iff, updateFirstName_map_id, ← find?_id_isSome_iff]
      exact h
    rw [e1, joinPlayerList, if_pos h2, updateFirstName_idem]
  · have hnone : ps.find? (fun p => p.id = id) = none := by
      cases hf : ps.find? (fun p => p.id = id) with
      | none => rfl
      | some p => rw [hf] at h; simp at h
    have hfresh : ∀ p ∈ ps, ¬ p.id = id := by
      intro p hp
      have := List.find?_eq_none.mp hnone p hp
      simpa using this
    have e1 : joinPlayerList ps id name =
        ps ++ [{ id := id, name := name, score := 0, isHost := ps.length == 0 }] := by
      rw [joinPlayerList, if_neg h]
    have h2 : ((joinPlayerList ps id name).find?
        (fun p => p.id = id)).isSome = true := by
      rw [e1, find?_id_isSome_iff]
      simp
    rw [e1] at h2
    rw [e1, joinPlayerList, if_pos h2,
        updateFirstName_append_fresh _ _ _ _ hfresh rfl rfl]

theorem removePlayer_players (s : RoomState) (id : String) :
    (removePlayer s id).players =
      (if (((s.players.find? (fun p => p.id = id)).map Player.isHost).getD false)
            ∧ (s.players.filter (fun p => ¬ p.id = id)).length > 0 then
         setHeadHost (s.players.filter (fun p => ¬ p.id = id))
       else s.players.filter (fun p => ¬ p.id = id)) := by
  unfold removePlayer
  dsimp only
  split <;> (split <;> rfl)

theorem startGame_players (s : RoomState) (id : String) (i : Fin 26) :
    (startGame s id i).players = s.players := by
  unfold startGame
  cases s.players.find? (fun p => p.id = id) with
  | none => rfl
  | some p =>
      by_cases h : p.isHost <;> simp [h]

theorem stopRound_players (s : RoomState) (id : String) :
    (stopRound s id).players = s.players := by
  unfold stopRound; split <;> rfl

/-! Claim C1. -/

theorem letter_status_aux (s : RoomState) (h : Reachable s) :
    s.currentLetter ≠ none →
    s.status = .PLAYING ∨ s.status = .REVIEW ∨ s.status = .RESULTS := by
  induction h with
  | init roomId => intro hl; exact absurd rfl hl
  | join id name hr ih =>
      rw [joinPlayer_status, joinPlayer_currentLetter]; exact ih
  | remove id hr ih =>
      unfold removePlayer
      dsimp only
      split <;> split
      · intro hl; exact absurd rfl hl
      · exact ih
      · intro hl; exact absurd rfl hl
      · exact ih
  | start id i hr ih =>
      unfold startGame
      split
      · split
        · intro _; exact Or.inl rfl
        · exact ih
      · exact ih
  | stop id hr ih =>
      unfold stopRound
      split
      · intro _; exact Or.inr (Or.inl rfl)
      · exact ih

/-- C1 (amended): in every reachable state, `currentLetter` is non-null
only if the status is PLAYING, REVIEW or RESULTS. The converse direction
of the claimed equivalence fails: `stopRound` can enter REVIEW from LOBBY
with `currentLetter` still null (see the counterexample). -/
theorem currentLetter_only_in_round_status (s : RoomState) (h : Reachable s)
    (hl : s.currentLetter ≠ none) :
    s.status = .PLAYING ∨ s.status = .REVIEW ∨ s.status = .RESULTS :=
  letter_status_aux s h hl

/-- Witness for `currentLetter_only_in_round_status`: a started room has a
letter and its status is PLAYING. -/
theorem currentLetter_only_in_round_status_witness :
    (startGame demoLobby "a" 0).currentLetter ≠ none ∧
    ((startGame demoLobby "a" 0).status = .PLAYING ∨
     (startGame demoLobby "a" 0).status = .REVIEW ∨
     (startGame demoLobby "a" 0).status = .RESULTS) :=
  ⟨by decide,
   currentLetter_only_in_round_status _
     (Reachable.start "a" 0 (Reachable.join "a" "n" (Reachable.init "r")))
     (by decide)⟩

/-- Counterexample to C1 as stated: the reachable state obtained by
joining one player and immediately calling `stopRound` has status REVIEW
while `currentLetter` is null, so non-null `currentLetter` is not
equivalent to the status being in PLAYING, REVIEW, RESULTS. -/
theorem c1_counterexample :
    Reachable (stopRound demoLobby "a") ∧
    (stopRound demoLobby "a").status = .REVIEW ∧
    (stopRound demoLobby "a").currentLetter = none :=
  ⟨Reachable.stop "a" (Reachable.join "a" "n" (Reachable.init "r")),
   by decide, by decide⟩

/-- C3 (amended): `startGame` applies the start transition (status
PLAYING, fresh letter, cleared answers) exactly when the requester matches
a player whose `isHost` is true, regardless of the current status; in
every other case it returns the state unchanged and raises no error. -/
theorem startGame_exactly_when_host (s : RoomState) (id : String) (i : Fin 26) :
    (((s.players.find? (fun p => p.id = id)).map Player.isHost).getD false = true →
      startGame s id i =
        { s with status := .PLAYING, currentLetter := some (pickLetter i),
                 answers := [] }) ∧
    (((s.players.find? (fun p => p.id = id)).map Player.isHost).getD false = false →
      startGame s id i = s) := by
  constructor <;> intro h <;> unfold startGame <;>
    cases hf : s.players.find? (fun p => p.id = id) <;> rw [hf] at h <;>
    simp at h <;> simp [h]

/-- Witness for `startGame_exactly_when_host`: the host starts the round,
an unknown requester changes nothing. -/
theorem startGame_exactly_when_host_witness :
    startGame demoLobby "a" 0 =
      { demoLobby with status := .PLAYING,
                       currentLetter := some (pickLetter 0), answers := [] } ∧
    startGame demoLobby "x" 0 = demoLobby :=
  ⟨(startGame_exactly_when_host demoLobby "a" 0).1 (by decide),
   (startGame_exactly_when_host demoLobby "x" 0).2 (by decide)⟩

/-- Counterexample to C3 as stated: with status already PLAYING (not LOBBY
or RESULTS), a host call to `startGame` succeeds again - it changes the
state (a new letter is drawn) and ends in PLAYING - instead of failing
with an Unauthorized error. -/
theorem c3_counterexample :
    (startGame demoLobby "a" 0).status = .PLAYING ∧
    ¬ ((startGame demoLobby "a" 0).status = .LOBBY ∨
       (startGame demoLobby "a" 0).status = .RESULTS) ∧
    startGame (startGame demoLobby "a" 0) "a" 1 ≠ startGame demoLobby "a" 0 ∧
    (startGame (startGame demoLobby "a" 0) "a" 1).status = .PLAYING := by
  refine ⟨by decide, by decide, ?_, by decide⟩
  decide

/-- C4 (amended): `stopRound` sets the status to REVIEW whenever the
playerId matches a player, regardless of the current status (the
transition is re-applied even outside PLAYING); when the playerId is
unknown the state is returned unchanged, and no call raises an error. -/
theorem stopRound_any_phase (s : RoomState) (id : String) :
    ((s.players.find? (fun p => p.id = id)).isSome = true →
      stopRound s id = { s with status := .REVIEW }) ∧
    ((s.players.find? (fun p => p.id = id)).isSome = false →
      stopRound s id = s) := by
  constructor <;> intro h <;> simp [stopRound, h]

/-- Witness for `stopRound_any_phase`: a known player stops the round from
LOBBY, an unknown id changes nothing. -/
theorem stopRound_any_phase_witness :
    stopRound demoLobby "a" = { demoLobby with status := .REVIEW } ∧
    stopRound demoLobby "x" = demoLobby :=
  ⟨(stopRound_any_phase demoLobby "a").1 (by decide),
   (stopRound_any_phase demoLobby "x").2 (by decide)⟩

/-- Counterexample to C4 as stated: `stopRound` called on a reachable
LOBBY state (status not PLAYING) transitions it to REVIEW and changes the
state, instead of failing with an InvalidPhase error and leaving the state
unchanged. -/
theorem c4_counterexample :
    Reachable demoLobby ∧ demoLobby.status = .LOBBY ∧
    (stopRound demoLobby "a").status = .REVIEW ∧
    stopRound demoLobby "a" ≠ demoLobby :=
  ⟨Reachable.join "a" "n" (Reachable.init "r"), by decide, by decide, by decide⟩

/-- C9: when the requester of `startGame` matches no player, or matches a
player whose `isHost` is false, the state is returned with every field
unchanged and nothing is thrown. -/
theorem startGame_nonhost_noop (s : RoomState) (id : String) (i : Fin 26)
    (h : ((s.players.find? (fun p => p.id = id)).map Player.isHost).getD false = false) :
    startGame s id i = s := by
  unfold startGame
  cases hf : s.players.find? (fun p => p.id = id) with
  | none => rfl
  | some p =>
      rw [hf] at h
      simp at h
      simp [h]

/-- Witness for `startGame_nonhost_noop`: the second player to join is not
host and their `startGame` call is a no-op. -/
theorem startGame_nonhost_noop_witness :
    (((joinPlayer demoLobby "b" "B").players.find?
        (fun p => p.id = "b")).map Player.isHost).getD false = false ∧
    startGame (joinPlayer demoLobby "b" "B") "b" 0 = joinPlayer demoLobby "b" "B" :=
  ⟨by decide, startGame_nonhost_noop _ _ 0 (by decide)⟩

theorem updateFirstName_decomp (ps : List Player) (id name : String)
    (h : (ps.find? (fun p => p.id = id)).isSome = true) :
    ∃ l1 p l2, ps = l1 ++ p :: l2 ∧ (∀ q ∈ l1, ¬ q.id = id) ∧ p.id = id ∧
      updateFirstName ps id name = l1 ++ { p with name := name } :: l2 := by
  induction ps with
  | nil => simp at h
  | cons x t ih =>
      by_cases hx : x.id = id
      · exact ⟨[], x, t, by simp, by simp, hx, by simp [updateFirstName, hx]⟩
      · have ht : (t.find? (fun p => p.id = id)).isSome = true := by
          rw [List.find?_cons_of_neg] at h
          · exact h
          · simp [hx]
        obtain ⟨l1, p, l2, he, hl1, hp, hu⟩ := ih ht
        refine ⟨x :: l1, p, l2, by simp [he], ?_, hp, ?_⟩
        · intro q hq
          rcases List.mem_cons.mp hq with rfl | hq2
          · exact hx
          · exact hl1 q hq2
        · simp [updateFirstName, hx, hu]

/-- C8: `joinPlayer` is idempotent on the player id. When the id is
already present, the players list keeps its length, its ids, its scores
and its host flags, and it decomposes as the same list with exactly the
first matched entry renamed to the argument and every other entry
untouched (only that player's name is updated); and for every state,
joining twice with the same arguments equals joining once. -/
theorem joinPlayer_idempotent (s : RoomState) (id name : String) :
    ((s.players.find? (fun p => p.id = id)).isSome = true →
      (joinPlayer s id name).players.length = s.players.length ∧
      (joinPlayer s id name).players.map Player.id = s.players.map Player.id ∧
      (joinPlayer s id name).players.map Player.score = s.players.map Player.score ∧
      (joinPlayer s id name).players.map Player.isHost = s.players.map Player.isHost ∧
      (∃ l1 p l2, s.players = l1 ++ p :: l2 ∧ (∀ q ∈ l1, ¬ q.id = id) ∧
        p.id = id ∧
        (joinPlayer s id name).players = l1 ++ { p with name := name } :: l2)) ∧
    joinPlayer (joinPlayer s id name) id name = joinPlayer s id name := by
  constructor
  · intro h
    have e1 : (joinPlayer s id name).players = updateFirstName s.players id name := by
      show joinPlayerList s.players id name = _
      rw [joinPlayerList, if_pos h]
    rw [e1]
    exact ⟨updateFirstName_length s.players id name,
           updateFirstName_map_id s.players id name,
           updateFirstName_map_score s.players id name,
           updateFirstName_map_isHost s.players id name,
           updateFirstName_decomp s.players id name h⟩
  · show ({ s with players :=
        joinPlayerList (joinPlayerList s.players id name) id name } : RoomState) = _
    rw [joinPlayerList_idem]
    rfl

/-! Claim C5. -/

theorem countP_updateFirstName (ps : List Player) (id name : String) :
    (updateFirstName ps id name).countP (fun p => p.isHost) =
      ps.countP (fun p => p.isHost) := by
  induction ps with
  | nil => rfl
  | cons p t ih =>
      by_cases h : p.id = id
      · simp [updateFirstName, h, List.countP_cons]
      · simp [updateFirstName, h, List.countP_cons, ih]

theorem setHeadHost_map_id (ps : List Player) :
    (setHeadHost ps).map Player.id = ps.map Player.id := by
  cases ps <;> simp [setHeadHost]

theorem two_le_length_of_two_mem {α : Type} {l : List α} {a b : α}
    (ha : a ∈ l) (hb : b ∈ l) (hne : a ≠ b) : 2 ≤ l.length := by
  cases l with
  | nil => cases ha
  | cons x t =>
      rcases List.mem_cons.mp ha with rfl | ha2
      · rcases List.mem_cons.mp hb with rfl | hb2
        · exact absurd rfl hne
        · have := List.length_pos_of_mem hb2
          simp only [List.length_cons]
          omega
      · have := List.length_pos_of_mem ha2
        simp only [List.length_cons]
        omega

theorem hostInv_init (roomId : String) : HostInv (initialState roomId) := by
  constructor <;> simp [initialState]

theorem hostInv_join (s : RoomState) (id name : String) (ih : HostInv s) :
    HostInv (joinPlayer s id name) := by
  obtain ⟨h1, h2⟩ := ih
  unfold HostInv joinPlayer
  dsimp only
  unfold joinPlayerList
  split
  · rw [updateFirstName_map_id, countP_updateFirstName]
    exact ⟨h1, h2⟩
  · rename_i h
    have hnone : s.players.find? (fun p => p.id = id) = none := by
      cases hf : s.players.find? (fun p => p.id = id) with
      | none => rfl
      | some q => rw [hf] at h; simp at h
    have hfresh : ∀ p ∈ s.players, ¬ p.id = id := by
      intro p hp
      have := List.find?_eq_none.mp hnone p hp
      simpa using this
    constructor
    · rw [List.map_append, List.nodup_append]
      refine ⟨h1, by simp, ?_⟩
      intro a haMem haMem2
      simp only [List.map_cons, List.map_nil, List.mem_singleton] at haMem2
      subst haMem2
      obtain ⟨p, hp, hpe⟩ := List.mem_map.mp haMem
      exact hfresh p hp hpe
    · rw [List.countP_append]
      by_cases hps : s.players.length = 0
      · have he : s.players = [] := List.length_eq_zero.mp hps
        simp [he, List.countP_cons]
      · have hbeq : (s.players.length == 0) = false := by
          simp [hps]
        simp only [hbeq, List.countP_cons, List.countP_nil]
        simpa using h2

theorem hostInv_remove (s : RoomState) (id : String) (ih : HostInv s) :
    HostInv (removePlayer s id) := by
  obtain ⟨h1, h2⟩ := ih
  unfold HostInv
  rw [removePlayer_players]
  have hsub : (s.players.filter (fun p => ¬ p.id = id)).Sublist s.players :=
    List.filter_sublist s.players
  have hnodup : ((s.players.filter (fun p => ¬ p.id = id)).map Player.id).Nodup :=
    List.Nodup.sublist (hsub.map Player.id) h1
  have hcount : (s.players.filter (fun p => ¬ p.id = id)).countP
      (fun p => p.isHost) ≤ 1 :=
    le_trans (hsub.countP_le _) h2
  split
  · rename_i hc
    obtain ⟨hw, hlen⟩ := hc
    obtain ⟨p, hfind⟩ : ∃ p, s.players.find? (fun q => q.id = id) = some p := by
      cases hf : s.players.find? (fun q => q.id = id) with
      | none => rw [hf] at hw; simp at hw
      | some p => exact ⟨p, rfl⟩
    have hph : p.isHost = true := by rw [hfind] at hw; simpa using hw
    have hpid : p.id = id := by
      have := List.find?_some hfind
      simpa using this
    have hpmem : p ∈ s.players := List.mem_of_find?_eq_some hfind
    have hzero : (s.players.filter (fun q => ¬ q.id = id)).countP
        (fun q => q.isHost) = 0 := by
      rw [List.countP_eq_zero]
      intro q hq hqh
      have hqmem : q ∈ s.players := (List.mem_filter.mp hq).1
      have hqid : ¬ q.id = id := by
        have := (List.mem_filter.mp hq).2
        simpa using this
      have hne : p ≠ q := fun he => hqid (he ▸ hpid)
      have hpmem2 : p ∈ s.players.filter (fun r => r.isHost) :=
        List.mem_filter.mpr ⟨hpmem, by simp [hph]⟩
      have hqmem2 : q ∈ s.players.filter (fun r => r.isHost) :=
        List.mem_filter.mpr ⟨hqmem, by simp_all⟩
      have h2l : (s.players.filter (fun r => r.isHost)).length ≤ 1 := by
        rw [← List.countP_eq_length_filter]
        exact h2
      have := two_le_length_of_two_mem hpmem2 hqmem2 hne
      omega
    obtain ⟨a, t, hat⟩ : ∃ a t, s.players.filter (fun p => ¬ p.id = id) = a :: t := by
      cases hr2 : s.players.filter (fun p => ¬ p.id = id) with
      | nil => rw [hr2] at hlen; simp at hlen
      | cons a t => exact ⟨a, t, rfl⟩
    constructor
    · rw [setHeadHost_map_id]; exact hnodup
    · rw [hat]
      rw [hat, List.countP_cons] at hzero
      have hz1 : t.countP (fun q => q.isHost) = 0 := by omega
      simp only [setHeadHost, List.countP_cons]
      simp only [hz1]
      simp
  · exact ⟨hnodup, hcount⟩

theorem hostInv_start (s : RoomState) (id : String) (i : Fin 26)
    (ih : HostInv s) : HostInv (startGame s id i) := by
  unfold HostInv
  rw [startGame_players]
  exact ih

theorem hostInv_stop (s : RoomState) (id : String) (ih : HostInv s) :
    HostInv (stopRound s id) := by
  unfold HostInv
  rw [stopRound_players]
  exact ih

theorem hostInv_reachable (s : RoomState) (h : Reachable s) : HostInv s := by
  induction h with
  | init roomId => exact hostInv_init roomId
  | join id name hr ih => exact hostInv_join _ id name ih
  | remove id hr ih => exact hostInv_remove _ id ih
  | start id i hr ih => exact hostInv_start _ id i ih
  | stop id hr ih => exact hostInv_stop _ id ih

/-- C5: in every reachable state at most one player has the host flag;
and whenever `removePlayer` removes a player that held the host flag and
some player remains, the first element of the remaining list carries the
host flag. -/
theorem at_most_one_host (s : RoomState) (h : Reachable s) :
    s.players.countP (fun p => p.isHost) ≤ 1 ∧
    (∀ id, ((s.players.find? (fun p => p.id = id)).map Player.isHost).getD false = true →
      (removePlayer s id).players ≠ [] →
      ((removePlayer s id).players.head?.map Player.isHost) = some true) := by
  refine ⟨(hostInv_reachable s h).2, ?_⟩
  intro id hw hne
  rw [removePlayer_players] at hne ⊢
  by_cases hc : (((s.players.find? (fun p => p.id = id)).map Player.isHost).getD false
        = true)
      ∧ (s.players.filter (fun p => ¬ p.id = id)).length > 0
  · rw [if_pos hc] at hne ⊢
    cases hr : s.players.filter (fun p => ¬ p.id = id) with
    | nil => rw [hr] at hc; simp at hc
    | cons a t => simp [setHeadHost]
  · rw [if_neg hc] at hne
    exfalso
    apply hne
    cases hr : s.players.filter (fun p => ¬ p.id = id) with
    | nil => rfl
    | cons a t =>
        exfalso
        apply hc
        exact ⟨hw, by rw [hr]; simp⟩

/-- Witness for `at_most_one_host`: a two-player room has one host, and
removing the host hands the flag to the first remaining player. -/
theorem at_most_one_host_witness :
    (joinPlayer demoLobby "b" "B").players.countP (fun p => p.isHost) ≤ 1 ∧
    ((removePlayer (joinPlayer demoLobby "b" "B") "a").players.head?.map
      Player.isHost) = some true :=
  ⟨(at_most_one_host _
      (Reachable.join "b" "B" (Reachable.join "a" "n" (Reachable.init "r")))).1,
   (at_most_one_host _
      (Reachable.join "b" "B" (Reachable.join "a" "n" (Reachable.init "r")))).2
     "a" (by decide) (by decide)⟩

/-- Witness for `joinPlayer_idempotent`: rejoining player `a` with a new
name keeps one entry, updates exactly that entry's name to the argument,
and repeating the call is a no-op. -/
theorem joinPlayer_idempotent_witness :
    ((demoLobby.players.find? (fun p => p.id = "a")).isSome = true) ∧
    (joinPlayer demoLobby "a" "X").players.length = demoLobby.players.length ∧
    (joinPlayer demoLobby "a" "X").players.map Player.id =
      demoLobby.players.map Player.id ∧
    demoLobby.players.map Player.name = ["n"] ∧
    (joinPlayer demoLobby "a" "X").players.map Player.name = ["X"] ∧
    joinPlayer (joinPlayer demoLobby "a" "X") "a" "X" =
      joinPlayer demoLobby "a" "X" :=
  ⟨by decide,
   ((joinPlayer_idempotent demoLobby "a" "X").1 (by decide)).1,
   ((joinPlayer_idempotent demoLobby "a" "X").1 (by decide)).2.1,
   by decide, by decide,
   (joinPlayer_idempotent demoLobby "a" "X").2⟩

/-! Claims C2, C6, C7 about the review classification. -/

theorem threshold_eq (n : Nat) : max 1 (n - 1) / 2 + 1 = (n - 1) / 2 + 1 := by
  match n with
  | 0 => rfl
  | 1 => rfl
  | (k + 2) => rw [Nat.max_eq_right (show 1 ≤ k + 2 - 1 by omega)]

/-- C2: for every review state and every answer that is non-blank after
trimming, the classification is REJECTED exactly when the vote count is at
least `floor((connected - 1) / 2) + 1` (over natural-number subtraction);
in particular with four connected players it is REJECTED at two votes and
not at one, and with two connected players at one vote. -/
theorem rejection_majority_threshold :
    (∀ (st : ReviewRoomState) (cat pid : String),
        jsTrim (answerOf st pid cat) ≠ "" →
        ((getPlayerStatus st cat pid none).state = .REJECTED ↔
          (connectedCount st - 1) / 2 + 1 ≤ (votesOf st pid cat).length)) ∧
    (getPlayerStatus fourPlayersTwoVotes "Cosa" "p1" none).state = .REJECTED ∧
    (getPlayerStatus fourPlayersOneVote "Cosa" "p1" none).state ≠ .REJECTED ∧
    (getPlayerStatus twoPlayersOneVote "Cosa" "p1" none).state = .REJECTED := by
  refine ⟨?_, by decide, by decide, by decide⟩
  intro st cat pid hne
  unfold getPlayerStatus
  simp only [Option.getD_none]
  rw [if_neg hne]
  simp only [threshold_eq]
  by_cases hv : (connectedCount st - 1) / 2 + 1 ≤ (votesOf st pid cat).length
  · rw [if_pos hv]
    simp [hv]
  · rw [if_neg hv]
    constructor
    · intro hstate
      split at hstate <;> simp at hstate
    · intro hv2
      exact absurd hv2 hv

/-- Witness for `rejection_majority_threshold`: the four-player two-vote
state instantiates the equivalence. -/
theorem rejection_majority_threshold_witness :
    jsTrim (answerOf fourPlayersTwoVotes "p1" "Cosa") ≠ "" ∧
    ((getPlayerStatus fourPlayersTwoVotes "Cosa" "p1" none).state = .REJECTED ↔
      (connectedCount fourPlayersTwoVotes - 1) / 2 + 1 ≤
        (votesOf fourPlayersTwoVotes "p1" "Cosa").length) :=
  ⟨by decide,
   rejection_majority_threshold.1 fourPlayersTwoVotes "Cosa" "p1" (by decide)⟩

/-- C7: a non-blank answer whose votes meet the rejection threshold is
classified REJECTED with score 0, whatever the duplicate scan would say:
the vote check is applied before duplicate detection. -/
theorem rejection_precedes_duplicates (st : ReviewRoomState) (cat pid : String)
    (hne : jsTrim (answerOf st pid cat) ≠ "")
    (hv : (connectedCount st - 1) / 2 + 1 ≤ (votesOf st pid cat).length) :
    (getPlayerStatus st cat pid none).state = .REJECTED ∧
    (getPlayerStatus st cat pid none).score = 0 := by
  unfold getPlayerStatus
  simp only [Option.getD_none]
  rw [if_neg hne]
  simp only [threshold_eq]
  rw [if_pos hv]
  exact ⟨rfl, rfl⟩

/-- Witness for `rejection_precedes_duplicates`: in `duplicateAndVoted`
the answer of `p1` is also a duplicate of the answer of `p2`, yet the met
threshold makes it REJECTED with score 0. -/
theorem rejection_precedes_duplicates_witness :
    jsTrim (answerOf duplicateAndVoted "p1" "Cosa") ≠ "" ∧
    (connectedCount duplicateAndVoted - 1) / 2 + 1 ≤
      (votesOf duplicateAndVoted "p1" "Cosa").length ∧
    isDuplicate duplicateAndVoted "Cosa" "p1"
      (normalize (answerOf duplicateAndVoted "p1" "Cosa")) = true ∧
    (getPlayerStatus duplicateAndVoted "Cosa" "p1" none).state = .REJECTED ∧
    (getPlayerStatus duplicateAndVoted "Cosa" "p1" none).score = 0 :=
  ⟨by decide, by decide, by decide,
   (rejection_precedes_duplicates duplicateAndVoted "Cosa" "p1"
      (by decide) (by decide)).1,
   (rejection_precedes_duplicates duplicateAndVoted "Cosa" "p1"
      (by decide) (by decide)).2⟩

/-- C6: the four inputs produce one identical comparison key under
`normalize`, and two connected players submitting any two of them for the
same category are both classified DUPLICATE when no votes are cast. -/
theorem cafe_normalization_equivalence (a b : String)
    (ha : a ∈ ["Café", "cafe", "CAFÉ", " cafe "])
    (hb : b ∈ ["Café", "cafe", "CAFÉ", " cafe "]) :
    normalize a = normalize b ∧
    (getPlayerStatus (mkCafeState a b) "Cosa" "p1" none).state = .DUPLICATE ∧
    (getPlayerStatus (mkCafeState a b) "Cosa" "p2" none).state = .DUPLICATE := by
  fin_cases ha <;> fin_cases hb <;> exact ⟨by decide, by decide, by decide⟩

/-- Witness for `cafe_normalization_equivalence` at the pair of inputs
with an accent and with padding whitespace. -/
theorem cafe_normalization_equivalence_witness :
    "Café" ∈ ["Café", "cafe", "CAFÉ", " cafe "] ∧
    " cafe " ∈ ["Café", "cafe", "CAFÉ", " cafe "] ∧
    normalize "Café" = normalize " cafe " ∧
    (getPlayerStatus (mkCafeState "Café" " cafe ") "Cosa" "p1" none).state
      = .DUPLICATE ∧
    (getPlayerStatus (mkCafeState "Café" " cafe ") "Cosa" "p2" none).state
      = .DUPLICATE :=
  ⟨by decide, by decide,
   (cafe_normalization_equivalence "Café" " cafe " (by decide) (by decide)).1,
   (cafe_normalization_equivalence "Café" " cafe " (by decide) (by decide)).2.1,
   (cafe_normalization_equivalence "Café" " cafe " (by decide) (by decide)).2.2⟩

/-! Claim C10: idempotence of `normalize`. The raw claim fails because
`trim` runs before the combining marks are stripped: stripping a mark can
expose new trailing whitespace that only a second `trim` removes. On
strings free of raw combining marks, idempotence holds. -/

theorem normCore_cons (c : Char) (l : List Char) :
    normCore (c :: l) = normChar c ++ normCore l := by
  simp [normCore, lowerL, nfdL, stripMarksL, normChar, List.filter_append]

theorem mem_normCore {d : Char} {l : List Char} (hd : d ∈ normCore l) :
    ∃ c ∈ l, d ∈ normChar c := by
  induction l with
  | nil => cases hd
  | cons c t ih =>
      rw [normCore_cons] at hd
      rcases List.mem_append.mp hd with h1 | h2
      · exact ⟨c, List.mem_cons_self c t, h1⟩
      · obtain ⟨e, he, hde⟩ := ih h2
        exact ⟨e, List.mem_cons_of_mem c he, hde⟩

theorem nfd_out_fixed :
    ∀ pr ∈ nfdPairs, lowerChar pr.1 = pr.1 →
      ∀ d ∈ stripMarksL pr.2, normChar d = [d] := by decide

theorem lower_range_fixed : ∀ q ∈ lowerPairs, lowerChar q.2 = q.2 := by decide

theorem lower_range_flags :
    ∀ q ∈ lowerPairs, isWs q.1 = false ∧ isWs q.2 = false ∧
      isMark q.1 = false ∧ isMark q.2 = false := by decide

theorem nfd_single :
    ∀ pr ∈ nfdPairs, (stripMarksL pr.2).length = 1 ∧
      isWs ((stripMarksL pr.2).headD 'A') = false ∧ isWs pr.1 = false := by
  decide

theorem lowerChar_eq_of_none {c : Char}
    (h : lowerPairs.find? (fun q => q.1 = c) = none) : lowerChar c = c := by
  simp [lowerChar, h]

theorem lowerChar_eq_of_some {c : Char} {q : Char × Char}
    (h : lowerPairs.find? (fun q => q.1 = c) = some q) : lowerChar c = q.2 := by
  simp [lowerChar, h]

theorem lowerChar_idem (c : Char) : lowerChar (lowerChar c) = lowerChar c := by
  cases hf : lowerPairs.find? (fun q => q.1 = c) with
  | none => rw [lowerChar_eq_of_none hf, lowerChar_eq_of_none hf]
  | some q =>
      rw [lowerChar_eq_of_some hf]
      exact lower_range_fixed q (List.mem_of_find?_eq_some hf)

theorem isWs_lowerChar (c : Char) : isWs (lowerChar c) = isWs c := by
  cases hf : lowerPairs.find? (fun q => q.1 = c) with
  | none => rw [lowerChar_eq_of_none hf]
  | some q =>
      have hq1 : q.1 = c := by
        have := List.find?_some hf
        simpa using this
      have hm := lower_range_flags q (List.mem_of_find?_eq_some hf)
      rw [lowerChar_eq_of_some hf, hm.2.1, ← hq1, hm.1]

theorem isMark_lowerChar (c : Char) : isMark (lowerChar c) = isMark c := by
  cases hf : lowerPairs.find? (fun q => q.1 = c) with
  | none => rw [lowerChar_eq_of_none hf]
  | some q =>
      have hq1 : q.1 = c := by
        have := List.find?_some hf
        simpa using this
      have hm := lower_range_flags q (List.mem_of_find?_eq_some hf)
      rw [lowerChar_eq_of_some hf, hm.2.2.2, ← hq1, hm.2.2.1]

theorem nfdChar_eq_of_none {c : Char}
    (h : nfdPairs.find? (fun q => q.1 = c) = none) : nfdChar c = [c] := by
  simp [nfdChar, h]

theorem nfdChar_eq_of_some {c : Char} {pr : Char × List Char}
    (h : nfdPairs.find? (fun q => q.1 = c) = some pr) : nfdChar c = pr.2 := by
  simp [nfdChar, h]

theorem normChar_fixed (c d : Char) (hd : d ∈ normChar c) : normChar d = [d] := by
  unfold normChar at hd
  cases hf : nfdPairs.find? (fun q => q.1 = lowerChar c) with
  | some pr =>
      rw [nfdChar_eq_of_some hf] at hd
      have hq1 : pr.1 = lowerChar c := by
        have := List.find?_some hf
        simpa using this
      have hfix : lowerChar pr.1 = pr.1 := by
        rw [hq1, lowerChar_idem]
      exact nfd_out_fixed pr (List.mem_of_find?_eq_some hf) hfix d hd
  | none =>
      rw [nfdChar_eq_of_none hf] at hd
      by_cases hm : isMark (lowerChar c) = true
      · simp [stripMarksL, hm] at hd
      · have hm2 : isMark (lowerChar c) = false := by
          cases hmb : isMark (lowerChar c)
          · rfl
          · exact absurd hmb hm
        simp only [stripMarksL, List.filter_cons, List.filter_nil, hm2] at hd
        simp at hd
        subst hd
        unfold normChar
        rw [lowerChar_idem, nfdChar_eq_of_none hf]
        simp [stripMarksL, hm2]

theorem normChar_singleton_ws (c : Char) (hm : isMark c = false) :
    normChar c = [normCharHead c] ∧ isWs (normCharHead c) = isWs c := by
  have hw2 : isWs (lowerChar c) = isWs c := isWs_lowerChar c
  have hm2 : isMark (lowerChar c) = false := by rw [isMark_lowerChar, hm]
  cases hf : nfdPairs.find? (fun q => q.1 = lowerChar c) with
  | some pr =>
      have hpr := nfd_single pr (List.mem_of_find?_eq_some hf)
      have hq1 : pr.1 = lowerChar c := by
        have := List.find?_some hf
        simpa using this
      obtain ⟨d, hdl⟩ := List.length_eq_one.mp hpr.1
      have e1 : normChar c = [d] := by
        unfold normChar
        rw [nfdChar_eq_of_some hf, hdl]
      have ehead : normCharHead c = d := by
        unfold normCharHead
        rw [e1]
        rfl
      refine ⟨by rw [e1, ehead], ?_⟩
      have hwd : isWs d = false := by
        have := hpr.2.1
        rw [hdl] at this
        simpa using this
      have hwc : isWs c = false := by
        rw [← hw2, ← hq1]
        exact hpr.2.2
      rw [ehead, hwd, hwc]
  | none =>
      have e1 : normChar c = [lowerChar c] := by
        unfold normChar
        rw [nfdChar_eq_of_none hf]
        simp [stripMarksL, hm2]
      have ehead : normCharHead c = lowerChar c := by
        unfold normCharHead
        rw [e1]
        rfl
      exact ⟨by rw [e1, ehead], by rw [ehead, hw2]⟩

theorem normCore_eq_map (l : List Char) (h : ∀ c ∈ l, isMark c = false) :
    normCore l = l.map normCharHead := by
  induction l with
  | nil => rfl
  | cons c t ih =>
      rw [normCore_cons, (normChar_singleton_ws c (h c (List.mem_cons_self c t))).1,
          ih (fun b hb => h b (List.mem_cons_of_mem c hb))]
      rfl

theorem normCore_fixed (m : List Char) (h : ∀ d ∈ m, normChar d = [d]) :
    normCore m = m := by
  induction m with
  | nil => rfl
  | cons d t ih =>
      rw [normCore_cons, h d (List.mem_cons_self d t),
          ih (fun b hb => h b (List.mem_cons_of_mem d hb))]
      rfl

theorem normCore_normCore (l : List Char) :
    normCore (normCore l) = normCore l := by
  apply normCore_fixed
  intro d hd
  obtain ⟨c, _, hdc⟩ := mem_normCore hd
  exact normChar_fixed c d hdc

theorem dropWhile_map_comm (f : Char → Char) (l : List Char)
    (h : ∀ a ∈ l, isWs (f a) = isWs a) :
    (l.map f).dropWhile isWs = (l.dropWhile isWs).map f := by
  induction l with
  | nil => rfl
  | cons a t ih =>
      have ha := h a (List.mem_cons_self a t)
      by_cases hw : isWs a = true
      · have hfa : isWs (f a) = true := by rw [ha, hw]
        simp only [List.map_cons, List.dropWhile_cons, hfa, hw]
        exact ih (fun b hb => h b (List.mem_cons_of_mem a hb))
      · have hw2 : isWs a = false := by
          cases hb : isWs a
          · rfl
          · exact absurd hb hw
        have hfa : isWs (f a) = false := by rw [ha, hw2]
        simp only [List.map_cons, List.dropWhile_cons, hfa, hw2]
        simp

theorem mem_of_mem_dropWhile {p : Char → Bool} {a : Char} {l : List Char}
    (h : a ∈ l.dropWhile p) : a ∈ l := by
  induction l with
  | nil => cases h
  | cons x xs ih =>
      by_cases hx : p x = true
      · rw [List.dropWhile_cons, if_pos hx] at h
        exact List.mem_cons_of_mem x (ih h)
      · rw [List.dropWhile_cons, if_neg hx] at h
        exact h

theorem mem_trimL {a : Char} {l : List Char} (h : a ∈ trimL l) : a ∈ l := by
  unfold trimL at h
  rw [List.mem_reverse] at h
  have h2 := mem_of_mem_dropWhile h
  rw [List.mem_reverse] at h2
  exact mem_of_mem_dropWhile h2

theorem trimL_map_comm (f : Char → Char) (l : List Char)
    (h : ∀ a ∈ l, isWs (f a) = isWs a) :
    trimL (l.map f) = (trimL l).map f := by
  unfold trimL
  rw [dropWhile_map_comm f l h]
  rw [← List.map_reverse]
  rw [dropWhile_map_comm f (l.dropWhile isWs).reverse
      (fun a ha => h a (mem_of_mem_dropWhile (List.mem_reverse.mp ha)))]
  rw [List.map_reverse]

theorem dropWhile_head_false {p : Char → Bool} {l t : List Char} {a : Char}
    (h : l.dropWhile p = a :: t) : p a = false := by
  induction l with
  | nil => cases h
  | cons x xs ih =>
      by_cases hx : p x = true
      · rw [List.dropWhile_cons, if_pos hx] at h
        exact ih h
      · rw [List.dropWhile_cons, if_neg hx] at h
        cases h
        cases hb : p a
        · rfl
        · exact absurd hb hx

theorem exists_dropWhile_append_last (p : Char → Bool) (xs : List Char)
    (a : Char) (ha : p a = false) :
    ∃ ys, (xs ++ [a]).dropWhile p = ys ++ [a] := by
  induction xs with
  | nil =>
      refine ⟨[], ?_⟩
      simp [List.dropWhile_cons, ha]
  | cons x t ih =>
      by_cases hx : p x = true
      · obtain ⟨ys, hy⟩ := ih
        refine ⟨ys, ?_⟩
        rw [List.cons_append, List.dropWhile_cons, if_pos hx]
        exact hy
      · refine ⟨x :: t, ?_⟩
        rw [List.cons_append, List.dropWhile_cons, if_neg hx]

theorem trimL_eq_self (l : List Char)
    (h1 : ∀ a t, l = a :: t → isWs a = false)
    (h2 : ∀ a t, l.reverse = a :: t → isWs a = false) :
    trimL l = l := by
  unfold trimL
  have e1 : l.dropWhile isWs = l := by
    cases hl : l with
    | nil => rfl
    | cons a t => rw [List.dropWhile_cons, if_neg (by simp [h1 a t hl])]
  rw [e1]
  have e2 : l.reverse.dropWhile isWs = l.reverse := by
    cases hr : l.reverse with
    | nil => rfl
    | cons a t =>
        rw [List.dropWhile_cons, if_neg (by simp [h2 a t hr])]
  rw [e2, List.reverse_reverse]

theorem trimL_head (l : List Char) :
    ∀ a t, trimL l = a :: t → isWs a = false := by
  intro a t h
  unfold trimL at h
  cases hA : l.dropWhile isWs with
  | nil => rw [hA] at h; cases h
  | cons x xs =>
      have hx : isWs x = false := dropWhile_head_false hA
      rw [hA] at h
      have hrev : (x :: xs).reverse = xs.reverse ++ [x] := by simp
      rw [hrev] at h
      obtain ⟨ys, hy⟩ := exists_dropWhile_append_last isWs xs.reverse x hx
      rw [hy] at h
      have : (ys ++ [x]).reverse = x :: ys.reverse := by simp
      rw [this] at h
      cases h
      exact hx

theorem trimL_last (l : List Char) :
    ∀ a t, (trimL l).reverse = a :: t → isWs a = false := by
  intro a t h
  unfold trimL at h
  rw [List.reverse_reverse] at h
  exact dropWhile_head_false h

theorem trimL_idem (l : List Char) : trimL (trimL l) = trimL l :=
  trimL_eq_self (trimL l) (trimL_head l) (trimL_last l)

/-- C10 (amended): `normalize` is idempotent on every string containing no
raw combining diacritic U+0300 to U+036F. On arbitrary strings idempotence
fails (see the counterexample): a stripped mark can expose trailing
whitespace that only the second application trims. -/
theorem normalize_idempotent_on_markfree (s : String)
    (h : s.data.all (fun c => !(isMark c)) = true) :
    normalize (normalize s) = normalize s := by
  have hm : ∀ c ∈ s.data, isMark c = false := by
    intro c hc
    have := List.all_eq_true.mp h c hc
    simpa using this
  unfold normalize
  have hdata : (String.mk (normCore (trimL s.data))).data =
      normCore (trimL s.data) := rfl
  rw [hdata]
  congr 1
  have htm : ∀ c ∈ trimL s.data, isMark c = false :=
    fun c hc => hm c (mem_trimL hc)
  have hmap : normCore (trimL s.data) = (trimL s.data).map normCharHead :=
    normCore_eq_map (trimL s.data) htm
  have hws : ∀ a ∈ trimL s.data, isWs (normCharHead a) = isWs a :=
    fun a ha => (normChar_singleton_ws a (htm a ha)).2
  rw [hmap, trimL_map_comm normCharHead (trimL s.data) hws, trimL_idem,
      ← hmap, normCore_normCore]

/-- Witness for `normalize_idempotent_on_markfree` at a string with an
accent and trailing whitespace. -/
theorem normalize_idempotent_on_markfree_witness :
    ("CAFÉ ".data.all (fun c => !(isMark c)) = true) ∧
    normalize (normalize "CAFÉ ") = normalize "CAFÉ " :=
  ⟨by decide, normalize_idempotent_on_markfree "CAFÉ " (by decide)⟩

/-- Counterexample to C10 as stated: for the input made of the letter a, a
space and the combining acute U+0301, the first `normalize` strips the
mark and leaves a trailing space (trim already ran), so a second
`normalize` shortens the string further. -/
theorem c10_counterexample :
    normalize (normalize "a ́") ≠ normalize "a ́" := by decide

end Tuti
